import Mathlib

set_option maxRecDepth 4000

/-!
Formal model of `src/bloom_filter.py` (PyBloomFilter).

The Python class `BloomFilter` is embedded shallowly:

* the bit array (`bitarray`) is a `List Bool`; Python's `bitarray(length)`
  constructor is documented by the bitarray library to leave the bits
  uninitialized, so allocation reads an ambient memory function `mem`;
* the external 64-bit hash family `xxh3_64_intdigest(·, seed=i)` is a
  parameter `xxh3 : ℕ → List ℕ → ℕ` (seed, byte string ↦ digest), since the
  claims under study do not depend on the concrete digest values;
* Python's randomized string hashing is a parameter `strHash : String → ℤ`;
* Python object identity (`id`) is an `oid : ℕ` field: distinct live
  objects have distinct ids;
* the real-valued formulas (`math.log`, `math.exp`, `ceil`, `round`) are
  modelled over `ℝ`.  Note `(m / n) * log 2` is irrational for `m > 0`,
  so `round` never meets a tie and Python's half-to-even rounding agrees
  with Mathlib's `round` on these inputs.
-/

/-- Python's hash of an `int`: reduction modulo the Mersenne prime `2^61 - 1`
keeping the sign, with the reserved value `-1` replaced by `-2`.  This is the
value `hash(item)` computes for `int` arguments in `put`/`may_contain`. -/
def pyHashInt (n : ℤ) : ℤ :=
  let M : ℤ := 2 ^ 61 - 1
  let r : ℤ := if 0 ≤ n then n % M else -((-n) % M)
  if r = -1 then -2 else r

/-- Python `h.to_bytes(64, byteorder='big', signed=True)`: the 64-byte
big-endian two's-complement encoding of `h`, used as the byte signature in
both `put` and `may_contain` (bloom_filter.py lines 128 and 142).  Taking
`h % 2^512` (Lean's `Int.emod`, always non-negative) yields the
two's-complement representative for any `h` in `[-2^511, 2^511)`; Python
raises `OverflowError` outside that range, which `hash` values (61 bits)
never reach. -/
def toBytesBE64 (h : ℤ) : List ℕ :=
  (List.range 64).map fun i => ((h % (2 : ℤ) ^ 512).toNat / 256 ^ (63 - i)) % 256

/-- Python values that can be passed to the `BloomFilter` constructor.
`boolV` is separate because Python's `bool` is a subclass of `int`.
Floats are identified with the rationals (every IEEE double is rational);
`complexV` carries real and imaginary parts. -/
inductive PyVal where
  | int (n : ℤ)
  | boolV (b : Bool)
  | float (q : ℚ)
  | complexV (re im : ℚ)
  | str (s : String)
  | noneV
deriving DecidableEq

/-- Python `isinstance(v, int)` (true for `bool`, a subclass of `int`). -/
def PyVal.isInstInt : PyVal → Bool
  | .int _ => true
  | .boolV _ => true
  | _ => false

/-- Python `isinstance(v, numbers.Number)`. -/
def PyVal.isInstNumber : PyVal → Bool
  | .int _ => true
  | .boolV _ => true
  | .float _ => true
  | .complexV _ _ => true
  | _ => false

/-- Python `isinstance(v, complex)`. -/
def PyVal.isInstComplex : PyVal → Bool
  | .complexV _ _ => true
  | _ => false

/-- The integer value of a `PyVal` known to be of integer type. -/
def PyVal.toInt : PyVal → ℤ
  | .int n => n
  | .boolV b => if b then 1 else 0
  | _ => 0

/-- The numeric value of a `PyVal` known to be a non-complex number
(used for the comparisons `fp_rate <= 0 or fp_rate >= 1`). -/
def PyVal.toRat : PyVal → ℚ
  | .int n => (n : ℚ)
  | .boolV b => if b then 1 else 0
  | .float q => q
  | _ => 0

/-- Hashable Python items passed to `put` / `may_contain`.  `pfloatInt n` is
a float of integral value `n` (e.g. `1.0`), whose Python hash equals the hash
of the integer `n`. -/
inductive PyItem where
  | pint (n : ℤ)
  | pbool (b : Bool)
  | pfloatInt (n : ℤ)
  | pstr (s : String)
deriving DecidableEq

/-- Python's built-in `hash` on the modelled items.  `strHash` is the
per-process randomized string hash (siphash with a random key). -/
def pyHash (strHash : String → ℤ) : PyItem → ℤ
  | .pint n => pyHashInt n
  | .pbool b => pyHashInt (if b then 1 else 0)
  | .pfloatInt n => pyHashInt n
  | .pstr s => strHash s

/-- State of a Python `BloomFilter` object (bloom_filter.py lines 51-73).
`oid` models `id(self)`. -/
structure BloomFilter where
  expected_insertions : ℤ
  fp_rate : ℚ
  bit_array : List Bool
  hash_functions : List (List ℕ → ℕ)
  oid : ℕ

/-- The class attribute `_hash_fn_pool`: the 30 seeded hash functions
`xxh3_64_intdigest(·, seed=i)` for `i in range(30)` (line 52). -/
def hashFnPool (xxh3 : ℕ → List ℕ → ℕ) : List (List ℕ → ℕ) :=
  (List.range 30).map fun i b => xxh3 i b

/-- Python `bitarray(length)`: a bit array of the given length whose
contents are NOT initialized (the bitarray library documents the bits of an
integer-constructed array as arbitrary; `bitarray.util.zeros` exists for
zeroed creation).  Modelled by reading an ambient memory function `mem`. -/
def bitarrayNew (length : ℕ) (mem : ℕ → Bool) : List Bool :=
  (List.range length).map mem

/-- The length computed by `_make_bit_array` (line 78):
`ceil(-n * log(p) / log(2) ** 2)`. -/
noncomputable def bloomLength (n : ℤ) (p : ℚ) : ℤ :=
  ⌈-(n : ℝ) * Real.log (p : ℝ) / Real.log 2 ^ 2⌉

/-- The hash-function count computed by `_pick_hash_functions` (line 84):
`round((m / n) * log(2))` where `m = len(self._bit_array)`. -/
noncomputable def bloomK (n m : ℤ) : ℤ :=
  round ((m : ℝ) / (n : ℝ) * Real.log 2)

/-- The body of `__init__` after validation (lines 70-73), together with
`_make_bit_array` and `_pick_hash_functions`: allocates `bitarray(length)`
(uninitialized, reading `mem`) and slices `_hash_fn_pool[:k]`.  `k ≥ 0`
always holds (`m, n > 0`), so Python's slice is `take`; when `k > 30` the
slice silently truncates to the whole pool. -/
noncomputable def BloomFilter.make (xxh3 : ℕ → List ℕ → ℕ) (mem : ℕ → Bool)
    (oid : ℕ) (n : ℤ) (p : ℚ) : BloomFilter :=
  let bits := bitarrayNew (bloomLength n p).toNat mem
  let k := bloomK n (bits.length : ℤ)
  { expected_insertions := n
    fp_rate := p
    bit_array := bits
    hash_functions := (hashFnPool xxh3).take k.toNat
    oid := oid }

/-- The two kinds of exception `__init__` raises. -/
inductive InitError where
  | typeError (msg : String)
  | valueError (msg : String)
deriving DecidableEq

/-- `__init__` (lines 54-73): the validation cascade, then construction. -/
noncomputable def BloomFilter.new (xxh3 : ℕ → List ℕ → ℕ) (mem : ℕ → Bool)
    (oid : ℕ) (expected_insertions fp_rate : PyVal) :
    Except InitError BloomFilter :=
  if ¬ expected_insertions.isInstInt then
    .error (.typeError "expected_insertions must be an integer")
  else if expected_insertions.toInt ≤ 0 then
    .error (.valueError "expected_insertions must be positive")
  else if ¬ fp_rate.isInstNumber then
    .error (.typeError "fp_rate must be numeric & between 0 and 1")
  else if fp_rate.isInstComplex then
    .error (.typeError "fp_rate must not be complex")
  else if fp_rate.toRat ≤ 0 ∨ 1 ≤ fp_rate.toRat then
    .error (.valueError "fp_rate must be between 0 and 1")
  else
    .ok (BloomFilter.make xxh3 mem oid expected_insertions.toInt fp_rate.toRat)

/-- `may_contain` (lines 123-136): for each hash function, probe bucket
`hasher(byte_signature) % len(bit_array)`; false as soon as a probed bit is
0, true when all are 1.  `List.all` short-circuits exactly like the loop. -/
def BloomFilter.mayContain (strHash : String → ℤ) (f : BloomFilter)
    (item : PyItem) : Bool :=
  let sig := toBytesBE64 (pyHash strHash item)
  f.hash_functions.all fun hasher =>
    f.bit_array.getD (hasher sig % f.bit_array.length) false

/-- The loop body of `put` (lines 144-146): for each hash function, set bit
`hasher(byte_signature) % len(bit_array)`.  `len(self._bit_array)` is re-read
on every iteration, hence `arr.length` inside the fold (`List.set` preserves
it). -/
def setBuckets (sig : List ℕ) (fns : List (List ℕ → ℕ)) (arr : List Bool) :
    List Bool :=
  fns.foldl (fun a hasher => a.set (hasher sig % a.length) true) arr

/-- `put` (lines 138-146): compute the byte signature and set the bucket of
every hash function. -/
def BloomFilter.put (strHash : String → ℤ) (f : BloomFilter)
    (item : PyItem) : BloomFilter :=
  let sig := toBytesBE64 (pyHash strHash item)
  { f with bit_array := setBuckets sig f.hash_functions f.bit_array }

/-- `put` folded over a list of items. -/
def BloomFilter.putList (strHash : String → ℤ) (f : BloomFilter)
    (items : List PyItem) : BloomFilter :=
  items.foldl (fun g x => g.put strHash x) f

/-- The argument of `put_all`: either a `BloomFilter` instance or any other
Python object (e.g. the list `[0, 0, 0]` used in the tests). -/
inductive PyObj where
  | filter (f : BloomFilter)
  | nonFilter

/-- `_is_compatible` (lines 102-121): a `BloomFilter`, not the same instance
(`id(self) == id(other)` is `oid` equality), equal hash-function count,
equal bit-array length. -/
def BloomFilter.isCompatible (self : BloomFilter) : PyObj → Bool
  | .nonFilter => false
  | .filter other =>
    if self.oid = other.oid then false
    else if self.hash_functions.length ≠ other.hash_functions.length then false
    else if self.bit_array.length ≠ other.bit_array.length then false
    else true

/-- The bit array of a `PyObj`, read only in the compatible branch of
`put_all`, where the object is known to be a filter. -/
def PyObj.bitsOf : PyObj → List Bool
  | .filter g => g.bit_array
  | .nonFilter => []

/-- `put_all` (lines 148-156): if compatible, `self._bit_array |= other._bit_array`
(element-wise or; the operands have equal length by compatibility); otherwise
raise `ValueError` with `self` untouched (the `else` branch only raises).
The second component records the raised message, if any. -/
def BloomFilter.putAll (self : BloomFilter) (other : PyObj) :
    BloomFilter × Option String :=
  if self.isCompatible other then
    ({ self with
        bit_array := List.zipWith or self.bit_array other.bitsOf }, none)
  else
    (self, some "Bloom filters are not compatible")

/-- `expected_fpp` (lines 88-100): `(1 - exp(-(k * n) / m)) ** k` with
`k = len(self._hash_functions)`, `n = self._expected_insertions`,
`m = len(self._bit_array)`. -/
noncomputable def BloomFilter.expectedFpp (f : BloomFilter) : ℝ :=
  let k := f.hash_functions.length
  let n := f.expected_insertions
  let m := f.bit_array.length
  let expected_zero_density := Real.exp (-((k : ℝ) * (n : ℝ)) / (m : ℝ))
  (1 - expected_zero_density) ^ k

/-- `__contains__` (lines 158-162): alias for `may_contain`. -/
def BloomFilter.containsOp (strHash : String → ℤ) (f : BloomFilter)
    (item : PyItem) : Bool :=
  f.mayContain strHash item


/-- Operations that can be applied to a constructed filter: the two mutators
`put` and `put_all` (queries do not change state). -/
inductive BloomOp where
  | putOp (x : PyItem)
  | putAllOp (other : PyObj)

/-- Apply a sequence of mutating operations to a filter state. -/
def BloomFilter.applyOps (strHash : String → ℤ) (f : BloomFilter) :
    List BloomOp → BloomFilter
  | [] => f
  | .putOp x :: rest => (f.put strHash x).applyOps strHash rest
  | .putAllOp o :: rest => ((f.putAll o).1).applyOps strHash rest

/-- The incompatibility condition exactly as the specification phrases it:
not a `BloomFilter` instance, or the same instance as the receiver, or
mismatched hash-function count, or mismatched bit-array length.  Stated
independently of the code's `_is_compatible` cascade, for comparison. -/
def specIncompatible (self : BloomFilter) : PyObj → Prop
  | .nonFilter => True
  | .filter other =>
      self.oid = other.oid
      ∨ self.hash_functions.length ≠ other.hash_functions.length
      ∨ self.bit_array.length ≠ other.bit_array.length

/-! ## Concrete instances used by the closed witness statements -/

/-- A concrete stand-in for the abstract seeded hash family (seed plus byte
sum); witnesses instantiate the parametric theorems with it. -/
def xxh3C : ℕ → List ℕ → ℕ := fun seed bytes =>
  seed + bytes.foldl (fun a b => a + b) 0

/-- A concrete stand-in for the per-process randomized string hash. -/
def strHashC : String → ℤ := fun s => (s.length : ℤ) + 3

/-- A concrete filter state: 8 zeroed bits, the first 2 pool functions. -/
def bf0 : BloomFilter :=
  { expected_insertions := 1000
    fp_rate := 1 / 100
    bit_array := List.replicate 8 false
    hash_functions := (hashFnPool xxh3C).take 2
    oid := 0 }


/-- A concrete filter with all 4 bits set, compatible with `bfB`. -/
def bfA : BloomFilter :=
  { expected_insertions := 10
    fp_rate := 3 / 100
    bit_array := List.replicate 4 true
    hash_functions := (hashFnPool xxh3C).take 2
    oid := 1 }

/-- A concrete zeroed filter, compatible with `bfA`. -/
def bfB : BloomFilter :=
  { expected_insertions := 20
    fp_rate := 1 / 100
    bit_array := List.replicate 4 false
    hash_functions := (hashFnPool xxh3C).take 2
    oid := 2 }

/-- A string-hash assignment standing for a process whose randomized hash
gives `hash("1") = 1 = hash(1)`: Python's per-process string hashing is
free to take any 64-bit value. -/
def strHash9 : String → ℤ := fun _ => 1

/-! ## Basic facts about the bit-array fold of `put` -/

/-- `List.set` with an out-of-range index is the identity. -/
theorem set_out_of_range {arr : List Bool} {j : ℕ} (h : arr.length ≤ j)
    (b : Bool) : arr.set j b = arr :=
  List.set_eq_of_length_le h

/-- Setting a bit to 1 never clears a 1 bit (idempotent, monotone). -/
theorem getD_set_true_mono {arr : List Bool} {i j : ℕ}
    (h : arr.getD i false = true) : (arr.set j true).getD i false = true := by
  rcases eq_or_ne j i with rfl | hne
  · by_cases hlt : j < arr.length
    · simp [List.getD_eq_getElem?_getD, List.getElem?_set_eq_of_lt _ hlt]
    · rw [set_out_of_range (le_of_not_lt hlt)]
      exact h
  · rw [List.getD_eq_getElem?_getD, List.getElem?_set_ne hne,
      ← List.getD_eq_getElem?_getD]
    exact h

/-- The `put` loop preserves the bit-array length. -/
theorem setBuckets_length (sig : List ℕ) (fns : List (List ℕ → ℕ))
    (arr : List Bool) : (setBuckets sig fns arr).length = arr.length := by
  induction fns generalizing arr with
  | nil => rfl
  | cons g t ih =>
    show (setBuckets sig t (arr.set (g sig % arr.length) true)).length = _
    rw [ih, List.length_set]

/-- The `put` loop never clears a 1 bit. -/
theorem setBuckets_mono {sig : List ℕ} {fns : List (List ℕ → ℕ)}
    {arr : List Bool} {i : ℕ} (h : arr.getD i false = true) :
    (setBuckets sig fns arr).getD i false = true := by
  induction fns generalizing arr with
  | nil => exact h
  | cons g t ih => exact ih (getD_set_true_mono h)

/-- After the `put` loop, the bucket of every hash function in the list
holds a 1. -/
theorem setBuckets_sets {sig : List ℕ} {fns : List (List ℕ → ℕ)}
    {arr : List Bool} (hlen : 0 < arr.length) {g : List ℕ → ℕ}
    (hg : g ∈ fns) :
    (setBuckets sig fns arr).getD (g sig % arr.length) false = true := by
  induction fns generalizing arr with
  | nil => cases hg
  | cons g0 t ih =>
    have hstep : setBuckets sig (g0 :: t) arr
        = setBuckets sig t (arr.set (g0 sig % arr.length) true) := rfl
    rcases List.mem_cons.mp hg with rfl | hg'
    · rw [hstep]
      apply setBuckets_mono
      have hb : g sig % arr.length < arr.length := Nat.mod_lt _ hlen
      simp [List.getD_eq_getElem?_getD, List.getElem?_set_eq_of_lt _ hb]
    · rw [hstep]
      have h2 := @ih (arr.set (g0 sig % arr.length) true)
        (by rw [List.length_set]; exact hlen) hg'
      rw [List.length_set] at h2
      exact h2

/-- On an array where bit `i` is 0, the `put` loop turns it into a 1 exactly
when `i` is the bucket of one of the hash functions. -/
theorem setBuckets_getD_true_iff {sig : List ℕ} {fns : List (List ℕ → ℕ)}
    {arr : List Bool} {i : ℕ} (hlen : 0 < arr.length) :
    (setBuckets sig fns arr).getD i false = true ↔
      (arr.getD i false = true
        ∨ i ∈ fns.map fun g => g sig % arr.length) := by
  induction fns generalizing arr with
  | nil => simp [setBuckets]
  | cons g0 t ih =>
    have hstep : setBuckets sig (g0 :: t) arr
        = setBuckets sig t (arr.set (g0 sig % arr.length) true) := rfl
    have hb : g0 sig % arr.length < arr.length := Nat.mod_lt _ hlen
    have hlen' : (arr.set (g0 sig % arr.length) true).length = arr.length :=
      List.length_set arr _ _
    rw [hstep]
    have := @ih (arr.set (g0 sig % arr.length) true)
      (by rw [hlen']; exact hlen)
    rw [hlen'] at this
    rw [this]
    constructor
    · rintro (hset | hmem)
      · rcases eq_or_ne (g0 sig % arr.length) i with rfl | hne
        · exact Or.inr (List.mem_map.mpr ⟨g0, List.mem_cons_self g0 t, rfl⟩)
        · left
          rw [List.getD_eq_getElem?_getD, List.getElem?_set_ne hne,
            ← List.getD_eq_getElem?_getD] at hset
          exact hset
      · right
        rw [List.map_cons]
        exact List.mem_cons_of_mem _ hmem
    · rintro (harr | hmem)
      · exact Or.inl (getD_set_true_mono harr)
      · rcases List.mem_map.mp hmem with ⟨g, hgmem, rfl⟩
        rcases List.mem_cons.mp hgmem with rfl | hgt
        · exact Or.inl (by
            simp [List.getD_eq_getElem?_getD,
              List.getElem?_set_eq_of_lt _ hb])
        · exact Or.inr (List.mem_map.mpr ⟨g, hgt, rfl⟩)

/-! ## Filter-level facts about `put`, `put_all` and `may_contain` -/

/-- `put` mutates only `bit_array` (it assigns only `self._bit_array`). -/
theorem put_hash_functions (strHash : String → ℤ) (f : BloomFilter)
    (x : PyItem) : (f.put strHash x).hash_functions = f.hash_functions := rfl

/-- `put` keeps `expected_insertions`. -/
theorem put_expected_insertions (strHash : String → ℤ) (f : BloomFilter)
    (x : PyItem) :
    (f.put strHash x).expected_insertions = f.expected_insertions := rfl

/-- `put` keeps the bit-array length (it only sets bits). -/
theorem put_bit_array_length (strHash : String → ℤ) (f : BloomFilter)
    (x : PyItem) :
    (f.put strHash x).bit_array.length = f.bit_array.length :=
  setBuckets_length _ _ _

/-- Bits only ever transition 0 → 1 under `put`. -/
theorem put_bit_mono {strHash : String → ℤ} {f : BloomFilter} {x : PyItem}
    {i : ℕ} (h : f.bit_array.getD i false = true) :
    (f.put strHash x).bit_array.getD i false = true :=
  setBuckets_mono h

/-- A true `may_contain` verdict survives any further `put`. -/
theorem mayContain_put_mono {strHash : String → ℤ} {f : BloomFilter}
    {x y : PyItem} (h : f.mayContain strHash x = true) :
    (f.put strHash y).mayContain strHash x = true := by
  rw [BloomFilter.mayContain, List.all_eq_true] at h ⊢
  intro hasher hmem
  rw [put_hash_functions] at hmem
  have hb := h hasher hmem
  rw [put_bit_array_length]
  exact put_bit_mono hb

/-- Directly after `put x`, every bucket of `x` holds a 1, so `may_contain x`
is true. -/
theorem mayContain_put_self (strHash : String → ℤ) (f : BloomFilter)
    (x : PyItem) (hlen : 0 < f.bit_array.length) :
    (f.put strHash x).mayContain strHash x = true := by
  rw [BloomFilter.mayContain, List.all_eq_true]
  intro hasher hmem
  rw [put_hash_functions] at hmem
  rw [put_bit_array_length]
  exact setBuckets_sets hlen hmem

/-- A true `may_contain` verdict survives any sequence of further puts. -/
theorem mayContain_putList_mono {strHash : String → ℤ} {f : BloomFilter}
    {x : PyItem} (ys : List PyItem) (h : f.mayContain strHash x = true) :
    (f.putList strHash ys).mayContain strHash x = true := by
  induction ys generalizing f with
  | nil => exact h
  | cons y t ih => exact ih (mayContain_put_mono h)

/-! ## C1 -/

/-- C1: zero false negatives.  For every hashable item `x` and every
`BloomFilter` state (any state with the nonempty bit array every constructed
filter has), after `put(x)`, `may_contain(x)` returns true, and it continues
to return true after any number of subsequent `put` calls with other
items. -/
theorem C1_no_false_negatives (strHash : String → ℤ) (f : BloomFilter)
    (x : PyItem) (others : List PyItem) (hlen : 0 < f.bit_array.length) :
    ((f.put strHash x).putList strHash others).mayContain strHash x = true :=
  mayContain_putList_mono others (mayContain_put_self strHash f x hlen)

/-- Witness for C1 at a concrete filter, item and put sequence. -/
theorem C1_no_false_negatives_witness :
    ((bf0.put strHashC (.pint 1)).putList strHashC
        [.pstr "hello", .pint 2, .pbool true]).mayContain strHashC
      (.pint 1) = true :=
  C1_no_false_negatives strHashC bf0 (.pint 1)
    [.pstr "hello", .pint 2, .pbool true] (by decide)

/-! ## C3 -/

/-- The code's compatibility cascade decides exactly the spec's
incompatibility disjunction. -/
theorem isCompatible_false_iff (self : BloomFilter) (other : PyObj) :
    self.isCompatible other = false ↔ specIncompatible self other := by
  cases other with
  | nonFilter => simp [BloomFilter.isCompatible, specIncompatible]
  | filter g =>
    simp only [BloomFilter.isCompatible, specIncompatible]
    split_ifs with h1 h2 h3 <;> simp_all

/-- Compatibility of two filters unfolded into its three structural
conditions. -/
theorem isCompatible_filter_iff (self g : BloomFilter) :
    self.isCompatible (.filter g) = true ↔
      (self.oid ≠ g.oid
        ∧ self.hash_functions.length = g.hash_functions.length
        ∧ self.bit_array.length = g.bit_array.length) := by
  simp only [BloomFilter.isCompatible]
  split_ifs with h1 h2 h3 <;> simp_all

/-- C3: `put_all(other)` raises `ValueError` (the spec's
`IncompatibleFilter`) if and only if `other` is not a `BloomFilter`
instance, or is the same instance as the receiver (`id` equality), or the
hash-function counts differ, or the bit-array lengths differ; and whenever
it raises, the receiver's state is completely unchanged (second conjunct:
either the resulting state is exactly the receiver's, or no error was
raised). -/
theorem C3_putAll_raises_iff (self : BloomFilter) (other : PyObj) :
    ((self.putAll other).2.isSome = true ↔ specIncompatible self other)
    ∧ ((self.putAll other).1 = self ∨ (self.putAll other).2 = none) := by
  refine ⟨?_, ?_⟩
  · rw [← isCompatible_false_iff]
    unfold BloomFilter.putAll
    rcases Bool.eq_false_or_eq_true (self.isCompatible other) with h | h <;>
      simp [h]
  · unfold BloomFilter.putAll
    rcases Bool.eq_false_or_eq_true (self.isCompatible other) with h | h <;>
      simp [h]

/-! ## C4 -/

/-- C4: construction fails (with `TypeError` or `ValueError`, the spec's
`InvalidArgument`) if and only if `expected_insertions` is not of integer
type or is ≤ 0, or `fp_rate` is not a number or is complex, or `fp_rate`
lies outside the open interval (0, 1) — the boundaries rejected by
`fp_rate <= 0 or fp_rate >= 1`.  Otherwise construction succeeds; the
validation cascade is pure, so a failing construction has no side
effects. -/
theorem C4_init_validation (xxh3 : ℕ → List ℕ → ℕ) (mem : ℕ → Bool)
    (oid : ℕ) (ei fp : PyVal) :
    (BloomFilter.new xxh3 mem oid ei fp).isOk = false ↔
      (ei.isInstInt = false ∨ ei.toInt ≤ 0
        ∨ fp.isInstNumber = false ∨ fp.isInstComplex = true
        ∨ fp.toRat ≤ 0 ∨ 1 ≤ fp.toRat) := by
  unfold BloomFilter.new
  split_ifs with h1 h2 h3 h4 h5 <;> simp_all [Except.isOk, Except.toBool, not_le]

/-! ## C6 -/

/-- Reading the element-wise or of two equal-length arrays. -/
theorem zipWith_or_getD {a b : List Bool} (h : a.length = b.length) (i : ℕ) :
    (List.zipWith or a b).getD i false = (a.getD i false || b.getD i false) := by
  by_cases hi : i < a.length
  · have hb' : i < b.length := h ▸ hi
    rw [List.getD_eq_getElem?_getD, List.getD_eq_getElem?_getD,
      List.getD_eq_getElem?_getD, List.getElem?_zipWith,
      List.getElem?_eq_getElem hi, List.getElem?_eq_getElem hb']
    rfl
  · have ha : a[i]? = none := by
      rw [List.getElem?_eq_none_iff]
      exact le_of_not_lt hi
    have hb : b[i]? = none := by
      rw [List.getElem?_eq_none_iff]
      rw [← h]
      exact le_of_not_lt hi
    rw [List.getD_eq_getElem?_getD, List.getD_eq_getElem?_getD,
      List.getD_eq_getElem?_getD, List.getElem?_zipWith, ha, hb]
    rfl

/-- On success, `put_all` stores the element-wise or of the two arrays. -/
theorem putAll_ok_bit_array {self g : BloomFilter}
    (h : self.isCompatible (.filter g) = true) :
    (self.putAll (.filter g)).1.bit_array
      = List.zipWith or self.bit_array g.bit_array := by
  unfold BloomFilter.putAll
  rw [if_pos h]
  rfl

/-- `put_all` never touches the receiver's hash functions. -/
theorem putAll_fst_hash_functions (self : BloomFilter) (o : PyObj) :
    (self.putAll o).1.hash_functions = self.hash_functions := by
  unfold BloomFilter.putAll
  split_ifs <;> rfl

/-- `put_all` never touches the receiver's `expected_insertions`. -/
theorem putAll_fst_expected_insertions (self : BloomFilter) (o : PyObj) :
    (self.putAll o).1.expected_insertions = self.expected_insertions := by
  unfold BloomFilter.putAll
  split_ifs <;> rfl

/-- `put_all` preserves the receiver's bit-array length: on success the
operand has the same length by compatibility, on failure nothing changes. -/
theorem putAll_fst_bit_array_length (self : BloomFilter) (o : PyObj) :
    (self.putAll o).1.bit_array.length = self.bit_array.length := by
  unfold BloomFilter.putAll
  split_ifs with h
  · cases o with
    | nonFilter => simp [BloomFilter.isCompatible] at h
    | filter g =>
      have hlen := ((isCompatible_filter_iff self g).mp h).2.2
      show (List.zipWith or self.bit_array (PyObj.bitsOf (.filter g))).length = _
      rw [PyObj.bitsOf, List.length_zipWith, ← hlen, min_self]
  · rfl

/-- A true `may_contain` on the receiver survives a successful merge. -/
theorem mayContain_putAll_left {strHash : String → ℤ} {self g : BloomFilter}
    {x : PyItem} (hc : self.isCompatible (.filter g) = true)
    (h : self.mayContain strHash x = true) :
    (self.putAll (.filter g)).1.mayContain strHash x = true := by
  have hlen := ((isCompatible_filter_iff self g).mp hc).2.2
  rw [BloomFilter.mayContain, List.all_eq_true] at h ⊢
  intro hasher hmem
  rw [putAll_fst_hash_functions] at hmem
  have hb := h hasher hmem
  rw [putAll_fst_bit_array_length, putAll_ok_bit_array hc,
    zipWith_or_getD hlen, hb, Bool.true_or]

/-- A true `may_contain` on the operand survives a successful merge, given
that the two filters carry the same hash functions (true of all filters the
class constructs: equal counts force equal pool prefixes). -/
theorem mayContain_putAll_right {strHash : String → ℤ} {self g : BloomFilter}
    {x : PyItem} (hc : self.isCompatible (.filter g) = true)
    (hfns : self.hash_functions = g.hash_functions)
    (h : g.mayContain strHash x = true) :
    (self.putAll (.filter g)).1.mayContain strHash x = true := by
  have hlen := ((isCompatible_filter_iff self g).mp hc).2.2
  rw [BloomFilter.mayContain, List.all_eq_true] at h ⊢
  intro hasher hmem
  rw [putAll_fst_hash_functions, hfns] at hmem
  have hb := h hasher hmem
  rw [← hlen] at hb
  rw [putAll_fst_bit_array_length, putAll_ok_bit_array hc,
    zipWith_or_getD hlen, hb, Bool.or_true]

/-- Equal-length prefixes of the shared pool are equal: this is why equal
hash-function counts imply equal hash functions for constructed filters. -/
theorem take_pool_eq_of_length_eq (xxh3 : ℕ → List ℕ → ℕ) {j k : ℕ}
    (h : ((hashFnPool xxh3).take j).length = ((hashFnPool xxh3).take k).length) :
    (hashFnPool xxh3).take j = (hashFnPool xxh3).take k := by
  have hp : (hashFnPool xxh3).length = 30 := by
    simp [hashFnPool]
  rw [List.length_take, List.length_take, hp] at h
  rcases le_or_lt j 30 with hj | hj <;> rcases le_or_lt k 30 with hk | hk
  · rw [min_eq_left hj, min_eq_left hk] at h
    rw [h]
  · rw [min_eq_left hj, min_eq_right (le_of_lt hk)] at h
    subst h
    rw [List.take_of_length_le (by simp [hp]),
      List.take_of_length_le (by simp only [hp]; exact le_of_lt hk)]
  · rw [min_eq_right (le_of_lt hj), min_eq_left hk] at h
    subst h
    rw [List.take_of_length_le (by simp only [hp]; exact le_of_lt hj),
      List.take_of_length_le (by simp [hp])]
  · rw [List.take_of_length_le (by simp only [hp]; exact le_of_lt hj),
      List.take_of_length_le (by simp only [hp]; exact le_of_lt hk)]

/-- C6: for two compatible filters, `put_all` succeeds, replacing the
receiver's bit array with the element-wise bitwise or of the two bit arrays,
and every item reported present by either filter before the merge is
reported present by the merged receiver.  The source's `put_all` assigns
only `self._bit_array`, so `other` is left unchanged by construction (the
embedding returns only the receiver's new state).  The hypothesis `hfns`
(equal hash functions) holds for every pair of filters the class constructs
with equal hash-function counts, since both take a prefix of the shared
pool. -/
theorem C6_putAll_union (strHash : String → ℤ) (self other : BloomFilter)
    (x : PyItem) (hc : self.isCompatible (.filter other) = true)
    (hfns : self.hash_functions = other.hash_functions)
    (hx : self.mayContain strHash x = true
      ∨ other.mayContain strHash x = true) :
    (self.putAll (.filter other)).2 = none
    ∧ (self.putAll (.filter other)).1.bit_array
        = List.zipWith or self.bit_array other.bit_array
    ∧ (self.putAll (.filter other)).1.mayContain strHash x = true := by
  refine ⟨?_, putAll_ok_bit_array hc, ?_⟩
  · unfold BloomFilter.putAll
    rw [if_pos hc]
  · rcases hx with h | h
    · exact mayContain_putAll_left hc h
    · exact mayContain_putAll_right hc hfns h

/-- Witness for C6 on two concrete compatible filters. -/
theorem C6_putAll_union_witness :
    (bfA.putAll (.filter bfB)).2 = none
    ∧ (bfA.putAll (.filter bfB)).1.bit_array
        = List.zipWith or bfA.bit_array bfB.bit_array
    ∧ (bfA.putAll (.filter bfB)).1.mayContain strHashC (.pint 0) = true :=
  C6_putAll_union strHashC bfA bfB (.pint 0) (by decide) rfl
    (Or.inl (by decide))

/-! ## C7 -/

/-- `expected_fpp` is unchanged by `put`: `put` touches only bits, never
`k`, `n` or `m`. -/
theorem expectedFpp_put (strHash : String → ℤ) (f : BloomFilter)
    (x : PyItem) : (f.put strHash x).expectedFpp = f.expectedFpp := by
  simp only [BloomFilter.expectedFpp, put_hash_functions,
    put_expected_insertions, put_bit_array_length]

/-- `expected_fpp` is unchanged by `put_all`, whether it raises or merges. -/
theorem expectedFpp_putAll (f : BloomFilter) (o : PyObj) :
    ((f.putAll o).1).expectedFpp = f.expectedFpp := by
  simp only [BloomFilter.expectedFpp, putAll_fst_hash_functions,
    putAll_fst_expected_insertions, putAll_fst_bit_array_length]

/-- `expected_insertions` is unchanged by any operation sequence. -/
theorem applyOps_expected_insertions (strHash : String → ℤ)
    (f : BloomFilter) (ops : List BloomOp) :
    (f.applyOps strHash ops).expected_insertions = f.expected_insertions := by
  induction ops generalizing f with
  | nil => rfl
  | cons op rest ih =>
    cases op with
    | putOp x =>
      rw [BloomFilter.applyOps, ih, put_expected_insertions]
    | putAllOp o =>
      rw [BloomFilter.applyOps, ih, putAll_fst_expected_insertions]

/-- C7: `expected_fpp()` returns `(1 - e^(-(k*n)/m))^k` computed from the
originally supplied `expected_insertions` `n` and the filter's `k` (its
hash-function count) and `m` (its bit-array length) only.  Its value is
invariant under any sequence of `put` / `put_all` calls (which also keep
the stored `n`), it mutates nothing (it is a pure function of the state),
and it never fails. -/
theorem C7_expectedFpp_pure (strHash : String → ℤ) (f : BloomFilter)
    (ops : List BloomOp) :
    (f.applyOps strHash ops).expectedFpp = f.expectedFpp
    ∧ (f.applyOps strHash ops).expected_insertions = f.expected_insertions
    ∧ f.expectedFpp
        = (1 - Real.exp (-((f.hash_functions.length : ℝ)
            * (f.expected_insertions : ℝ)) / (f.bit_array.length : ℝ)))
          ^ f.hash_functions.length := by
  refine ⟨?_, applyOps_expected_insertions strHash f ops, rfl⟩
  induction ops generalizing f with
  | nil => rfl
  | cons op rest ih =>
    cases op with
    | putOp x =>
      rw [BloomFilter.applyOps, ih, expectedFpp_put]
    | putAllOp o =>
      rw [BloomFilter.applyOps, ih, expectedFpp_putAll]

/-! ## Construction facts and numeric evaluations (C2, C5, C8) -/

/-- For valid arguments the computed bit-array length is positive:
`0 < p < 1` makes `log p` negative, so `-n * log p / log(2)^2 > 0`. -/
theorem bloomLength_pos {n : ℤ} {p : ℚ} (hn : 0 < n) (hp : 0 < p)
    (h1 : p < 1) : 0 < bloomLength n p := by
  rw [bloomLength, Int.ceil_pos]
  have hlogp : Real.log (p : ℝ) < 0 :=
    Real.log_neg (by exact_mod_cast hp) (by exact_mod_cast h1)
  have hn' : (0 : ℝ) < (n : ℝ) := by exact_mod_cast hn
  have hnum : (0 : ℝ) < -(n : ℝ) * Real.log (p : ℝ) := by nlinarith
  exact div_pos hnum (pow_pos (Real.log_pos one_lt_two) 2)

/-- The constructed bit array, unfolded. -/
theorem make_bit_array (xxh3 : ℕ → List ℕ → ℕ) (mem : ℕ → Bool) (oid : ℕ)
    (n : ℤ) (p : ℚ) :
    (BloomFilter.make xxh3 mem oid n p).bit_array
      = bitarrayNew (bloomLength n p).toNat mem := rfl

/-- The constructed bit array has exactly the computed length. -/
theorem make_bit_array_length (xxh3 : ℕ → List ℕ → ℕ) (mem : ℕ → Bool)
    (oid : ℕ) (n : ℤ) (p : ℚ) :
    (BloomFilter.make xxh3 mem oid n p).bit_array.length
      = (bloomLength n p).toNat := by
  rw [make_bit_array, bitarrayNew, List.length_map, List.length_range]

/-- The constructed hash functions: the pool prefix of length `k`, with `k`
computed from `len(bit_array)`. -/
theorem make_hash_functions (xxh3 : ℕ → List ℕ → ℕ) (mem : ℕ → Bool)
    (oid : ℕ) (n : ℤ) (p : ℚ) :
    (BloomFilter.make xxh3 mem oid n p).hash_functions
      = (hashFnPool xxh3).take
          (bloomK n (((bloomLength n p).toNat : ℕ) : ℤ)).toNat := by
  show (hashFnPool xxh3).take
      (bloomK n ((bitarrayNew (bloomLength n p).toNat mem).length : ℤ)).toNat
    = _
  rw [bitarrayNew, List.length_map, List.length_range]

/-- For valid arguments, `k` is computed at the (positive) value
`bloomLength n p` itself. -/
theorem make_hash_functions_of_valid (xxh3 : ℕ → List ℕ → ℕ)
    (mem : ℕ → Bool) (oid : ℕ) {n : ℤ} {p : ℚ} (hn : 0 < n) (hp : 0 < p)
    (h1 : p < 1) :
    (BloomFilter.make xxh3 mem oid n p).hash_functions
      = (hashFnPool xxh3).take (bloomK n (bloomLength n p)).toNat := by
  rw [make_hash_functions,
    Int.toNat_of_nonneg (le_of_lt (bloomLength_pos hn hp h1))]

/-- The constructed hash-function count is `min k 30`: the slice
`_hash_fn_pool[:k]` silently truncates at the pool size. -/
theorem make_hash_count (xxh3 : ℕ → List ℕ → ℕ) (mem : ℕ → Bool) (oid : ℕ)
    {n : ℤ} {p : ℚ} (hn : 0 < n) (hp : 0 < p) (h1 : p < 1) :
    (BloomFilter.make xxh3 mem oid n p).hash_functions.length
      = min (bloomK n (bloomLength n p)).toNat 30 := by
  rw [make_hash_functions_of_valid xxh3 mem oid hn hp h1, List.length_take]
  simp [hashFnPool]

/-- Valid arguments pass the whole validation cascade. -/
theorem new_ok_of_valid (xxh3 : ℕ → List ℕ → ℕ) (mem : ℕ → Bool) (oid : ℕ)
    {n : ℤ} {p : ℚ} (hn : 0 < n) (hp : 0 < p) (h1 : p < 1) :
    BloomFilter.new xxh3 mem oid (.int n) (.float p)
      = .ok (BloomFilter.make xxh3 mem oid n p) := by
  unfold BloomFilter.new
  simp only [PyVal.isInstInt, PyVal.toInt, PyVal.isInstNumber,
    PyVal.isInstComplex, PyVal.toRat]
  rw [if_neg (by simp), if_neg (by simp [not_le]; exact hn),
    if_neg (by simp), if_neg (by simp),
    if_neg (by push_neg; exact ⟨hp, h1⟩)]

/-- `log((1/2)^e) = -(e * log 2)`. -/
theorem log_half_pow (e : ℕ) :
    Real.log ((1 / 2 : ℝ) ^ e) = -((e : ℝ) * Real.log 2) := by
  rw [Real.log_pow, one_div, Real.log_inv]
  ring

/-- The quantity `_make_bit_array` computes, simplified to `e / log 2` for
`(n, p) = (1, (1/2)^e)`. -/
theorem bloomLength_one_half_pow (e : ℕ) :
    bloomLength 1 ((1 / 2 : ℚ) ^ e) = ⌈(e : ℝ) / Real.log 2⌉ := by
  have hL : (0 : ℝ) < Real.log 2 := Real.log_pos one_lt_two
  rw [bloomLength]
  congr 1
  have hcast : (((1 / 2 : ℚ) ^ e : ℚ) : ℝ) = (1 / 2 : ℝ) ^ e := by
    push_cast
    ring
  rw [hcast, log_half_pow]
  field_simp
  ring

/-- Concrete evaluation: `m = ceil(40 / log 2) = 58`. -/
theorem bloomLength_pow40 : bloomLength 1 ((1 / 2 : ℚ) ^ 40) = 58 := by
  have hL1 := Real.log_two_gt_d9
  have hL2 := Real.log_two_lt_d9
  have hL : (0 : ℝ) < Real.log 2 := Real.log_pos one_lt_two
  rw [bloomLength_one_half_pow]
  rw [Int.ceil_eq_iff]
  constructor
  · rw [lt_div_iff₀ hL]
    push_cast
    linarith
  · rw [div_le_iff₀ hL]
    push_cast
    linarith

/-- Concrete evaluation: `k = round(58 * log 2) = 40`. -/
theorem bloomK_58 : bloomK 1 58 = 40 := by
  have hL1 := Real.log_two_gt_d9
  have hL2 := Real.log_two_lt_d9
  rw [bloomK, round_eq, Int.floor_eq_iff]
  constructor
  · push_cast
    linarith
  · push_cast
    linarith

/-- Concrete evaluation: `m = ceil(50 / log 2) = 73`. -/
theorem bloomLength_pow50 : bloomLength 1 ((1 / 2 : ℚ) ^ 50) = 73 := by
  have hL1 := Real.log_two_gt_d9
  have hL2 := Real.log_two_lt_d9
  have hL : (0 : ℝ) < Real.log 2 := Real.log_pos one_lt_two
  rw [bloomLength_one_half_pow]
  rw [Int.ceil_eq_iff]
  constructor
  · rw [lt_div_iff₀ hL]
    push_cast
    linarith
  · rw [div_le_iff₀ hL]
    push_cast
    linarith

/-- Concrete evaluation: `k = round(73 * log 2) = 51`. -/
theorem bloomK_73 : bloomK 1 73 = 51 := by
  have hL1 := Real.log_two_gt_d9
  have hL2 := Real.log_two_lt_d9
  rw [bloomK, round_eq, Int.floor_eq_iff]
  constructor
  · push_cast
    linarith
  · push_cast
    linarith

/-! ## C2 -/

/-- C2: the claim says the freshly allocated bit array is all zeros; the
code calls `bitarray(length)`, whose contents the bitarray library leaves
uninitialized.  Evaluating the model at the failing input: constructing
with the valid arguments `(n, p) = (1, 1/2)` in a process whose allocator
hands back non-zero memory yields a fresh filter whose bucket 0 already
holds a 1 (so `may_contain` can report true before any `put`).  The repo's
own test `test_not_in` assumes the all-zero behaviour the claim states. -/
theorem C2_unzeroed_allocation :
    0 < (BloomFilter.make xxh3C (fun _ => true) 0 1 (1 / 2)).bit_array.length
    ∧ (BloomFilter.make xxh3C (fun _ => true) 0 1
        (1 / 2)).bit_array.getD 0 false = true := by
  have hpos : 0 < bloomLength 1 (1 / 2 : ℚ) :=
    bloomLength_pos (by norm_num) (by norm_num) (by norm_num)
  have hpos' : 0 < (bloomLength 1 (1 / 2 : ℚ)).toNat := by omega
  refine ⟨?_, ?_⟩
  · rw [make_bit_array_length]
    exact hpos'
  · rw [make_bit_array, bitarrayNew, List.getD_eq_getElem?_getD,
      List.getElem?_map, List.getElem?_range hpos']
    rfl

/-- Under an all-zero memory, the same construction gives the all-zero
array the specification intends: the defect is only the reliance on the
allocator's contents. -/
theorem make_zero_mem_bit (i : ℕ) :
    (BloomFilter.make xxh3C (fun _ => false) 0 1
      (1 / 2)).bit_array.getD i false = false := by
  rw [make_bit_array, bitarrayNew, List.getD_eq_getElem?_getD]
  rcases lt_or_le i (bloomLength 1 (1 / 2 : ℚ)).toNat with hi | hi
  · rw [List.getElem?_map, List.getElem?_range hi]
    rfl
  · rw [List.getElem?_eq_none_iff.mpr (by simpa using hi)]
    rfl

/-! ## C5 -/

/-- C5, refuted as stated: for `(n, p) = (1, (1/2)^40)` the derived
hash-function count is `k = 40 > 30`, yet construction succeeds — the slice
`_hash_fn_pool[:k]` silently selects only the 30 pool functions instead of
failing. -/
theorem C5_counterexample :
    (BloomFilter.new xxh3C (fun _ => false) 0 (.int 1)
        (.float ((1 / 2 : ℚ) ^ 40))).isOk = true
    ∧ 30 < bloomK 1 (bloomLength 1 ((1 / 2 : ℚ) ^ 40))
    ∧ (BloomFilter.make xxh3C (fun _ => false) 0 1
        ((1 / 2 : ℚ) ^ 40)).hash_functions.length = 30 := by
  have hp : (0 : ℚ) < (1 / 2) ^ 40 := by positivity
  have h1 : ((1 / 2 : ℚ)) ^ 40 < 1 := by norm_num
  refine ⟨?_, ?_, ?_⟩
  · rw [new_ok_of_valid xxh3C _ 0 (by norm_num) hp h1]
    rfl
  · rw [bloomLength_pow40, bloomK_58]
    norm_num
  · rw [make_hash_count xxh3C _ 0 (by norm_num) hp h1, bloomLength_pow40,
      bloomK_58]
    rfl

/-- C5 (amended): when the derived `k` reaches or exceeds the pool size 30,
construction does NOT fail — it succeeds and the filter silently receives
exactly the 30 pool functions (fewer than `k` whenever `k > 30`). -/
theorem C5_silent_truncation (xxh3 : ℕ → List ℕ → ℕ) (mem : ℕ → Bool)
    (oid : ℕ) {n : ℤ} {p : ℚ} (hn : 0 < n) (hp : 0 < p) (h1 : p < 1)
    (hk : 30 ≤ bloomK n (bloomLength n p)) :
    (BloomFilter.new xxh3 mem oid (.int n) (.float p)).isOk = true
    ∧ (BloomFilter.make xxh3 mem oid n p).hash_functions.length = 30 := by
  refine ⟨?_, ?_⟩
  · rw [new_ok_of_valid xxh3 mem oid hn hp h1]
    rfl
  · rw [make_hash_count xxh3 mem oid hn hp h1]
    omega

/-- Witness for the amended C5 at `(n, p) = (1, (1/2)^40)`, where
`k = 40`. -/
theorem C5_silent_truncation_witness :
    (BloomFilter.new xxh3C (fun _ => false) 1 (.int 1)
        (.float ((1 / 2 : ℚ) ^ 40))).isOk = true
    ∧ (BloomFilter.make xxh3C (fun _ => false) 1 1
        ((1 / 2 : ℚ) ^ 40)).hash_functions.length = 30 :=
  C5_silent_truncation xxh3C (fun _ => false) 1 (by norm_num)
    (by positivity) (by norm_num)
    (by rw [bloomLength_pow40, bloomK_58]; norm_num)

/-! ## C8 -/

/-- C8, refuted as stated: at `(n, p) = (1, (1/2)^50)` the derived count is
`k = 51`, but the constructed filter holds 30 hash functions, not `k`. -/
theorem C8_counterexample :
    bloomK 1 (bloomLength 1 ((1 / 2 : ℚ) ^ 50)) = 51
    ∧ (BloomFilter.make xxh3C (fun _ => false) 0 1
        ((1 / 2 : ℚ) ^ 50)).hash_functions.length = 30
    ∧ (BloomFilter.make xxh3C (fun _ => false) 0 1
        ((1 / 2 : ℚ) ^ 50)).hash_functions.length
      ≠ (bloomK 1 (bloomLength 1 ((1 / 2 : ℚ) ^ 50))).toNat := by
  have hp : (0 : ℚ) < (1 / 2) ^ 50 := by positivity
  have h1 : ((1 / 2 : ℚ)) ^ 50 < 1 := by norm_num
  have hcount : (BloomFilter.make xxh3C (fun _ => false) 0 1
      ((1 / 2 : ℚ) ^ 50)).hash_functions.length = 30 := by
    rw [make_hash_count xxh3C _ 0 (by norm_num) hp h1, bloomLength_pow50,
      bloomK_73]
    rfl
  refine ⟨by rw [bloomLength_pow50, bloomK_73], hcount, ?_⟩
  rw [hcount, bloomLength_pow50, bloomK_73]
  decide

/-- C8 (amended): for every valid `(n, p)`, construction derives
`m = ceil(-n ln p / (ln 2)^2)` as the bit-array length and
`k = round((m / n) ln 2)`, computed once at construction; the filter's hash
functions are the slice `_hash_fn_pool[:k]` — the first `min(k, 30)` pool
functions in pool order, which are the first `k` exactly when `k ≤ 30` —
and the assignment depends only on `(n, p)`: two filters built with the
same `(n, p)` (any memory contents, any identity) receive identical hash
functions. -/
theorem C8_parameter_derivation (xxh3 : ℕ → List ℕ → ℕ)
    (mem mem2 : ℕ → Bool) (oid oid2 : ℕ) {n : ℤ} {p : ℚ} (hn : 0 < n)
    (hp : 0 < p) (h1 : p < 1) :
    BloomFilter.new xxh3 mem oid (.int n) (.float p)
        = .ok (BloomFilter.make xxh3 mem oid n p)
    ∧ (BloomFilter.make xxh3 mem oid n p).bit_array.length
        = (bloomLength n p).toNat
    ∧ (BloomFilter.make xxh3 mem oid n p).hash_functions
        = (hashFnPool xxh3).take (bloomK n (bloomLength n p)).toNat
    ∧ (BloomFilter.make xxh3 mem oid n p).hash_functions
        = (BloomFilter.make xxh3 mem2 oid2 n p).hash_functions := by
  refine ⟨new_ok_of_valid xxh3 mem oid hn hp h1,
    make_bit_array_length xxh3 mem oid n p,
    make_hash_functions_of_valid xxh3 mem oid hn hp h1, ?_⟩
  rw [make_hash_functions_of_valid xxh3 mem oid hn hp h1,
    make_hash_functions_of_valid xxh3 mem2 oid2 hn hp h1]

/-- Witness for the amended C8 at `(n, p) = (1, 1/2)`. -/
theorem C8_parameter_derivation_witness :
    BloomFilter.new xxh3C (fun _ => false) 3 (.int 1) (.float (1 / 2))
        = .ok (BloomFilter.make xxh3C (fun _ => false) 3 1 (1 / 2))
    ∧ (BloomFilter.make xxh3C (fun _ => false) 3 1
        (1 / 2)).bit_array.length = (bloomLength 1 (1 / 2)).toNat
    ∧ (BloomFilter.make xxh3C (fun _ => false) 3 1 (1 / 2)).hash_functions
        = (hashFnPool xxh3C).take (bloomK 1 (bloomLength 1 (1 / 2))).toNat
    ∧ (BloomFilter.make xxh3C (fun _ => false) 3 1 (1 / 2)).hash_functions
        = (BloomFilter.make xxh3C (fun _ => true) 4 1
            (1 / 2)).hash_functions :=
  C8_parameter_derivation xxh3C (fun _ => false) (fun _ => true) 3 4
    (by norm_num) (by norm_num) (by norm_num)

/-! ## C9 -/

/-- Base-256 digits below `256^d` determine the number. -/
theorem digits_determine (d : ℕ) :
    ∀ M N : ℕ, M < 256 ^ d → N < 256 ^ d →
      (∀ i < d, M / 256 ^ i % 256 = N / 256 ^ i % 256) → M = N := by
  induction d with
  | zero =>
    intro M N hM hN _
    rw [pow_zero] at hM hN
    omega
  | succ d ih =>
    intro M N hM hN h
    have h0 : M % 256 = N % 256 := by
      have := h 0 (Nat.succ_pos d)
      simpa using this
    have hq : M / 256 = N / 256 := by
      apply ih
      · rw [Nat.div_lt_iff_lt_mul (by norm_num), ← pow_succ]
        exact hM
      · rw [Nat.div_lt_iff_lt_mul (by norm_num), ← pow_succ]
        exact hN
      · intro i hi
        have hstep := h (i + 1) (Nat.succ_lt_succ hi)
        rw [Nat.div_div_eq_div_mul, Nat.div_div_eq_div_mul, ← pow_succ']
        exact hstep
    omega

/-- The byte signature is injective on the two's-complement range of
`to_bytes(64, signed=True)`: distinct hash values always produce distinct
byte signatures. -/
theorem toBytesBE64_inj {a b : ℤ} (ha1 : -(2 ^ 511) ≤ a) (ha2 : a < 2 ^ 511)
    (hb1 : -(2 ^ 511) ≤ b) (hb2 : b < 2 ^ 511)
    (h : toBytesBE64 a = toBytesBE64 b) : a = b := by
  have hM : ∀ i, i < 64 → (a % 2 ^ 512).toNat / 256 ^ (63 - i) % 256
      = (b % 2 ^ 512).toNat / 256 ^ (63 - i) % 256 := by
    intro i hi
    have hc := congrArg (fun l => l.getD i 0) h
    simpa [toBytesBE64, List.getD_eq_getElem?_getD, List.getElem?_map,
      List.getElem?_range hi] using hc
  have hdig : ∀ j, j < 64 → (a % 2 ^ 512).toNat / 256 ^ j % 256
      = (b % 2 ^ 512).toNat / 256 ^ j % 256 := by
    intro j hj
    have h63 : 63 - (63 - j) = j := by omega
    have hx := hM (63 - j) (by omega)
    rwa [h63] at hx
  have hlt : ∀ c : ℤ, (c % 2 ^ 512).toNat < 256 ^ 64 := by
    intro c
    have h1 : c % 2 ^ 512 < 2 ^ 512 := Int.emod_lt_of_pos c (by positivity)
    have h0 : (0 : ℤ) ≤ c % 2 ^ 512 := Int.emod_nonneg c (by positivity)
    have h2 : (256 : ℕ) ^ 64 = 2 ^ 512 := by norm_num
    rw [h2]
    omega
  have heq : (a % 2 ^ 512).toNat = (b % 2 ^ 512).toNat :=
    digits_determine 64 _ _ (hlt a) (hlt b) hdig
  have hA : (0 : ℤ) ≤ a % 2 ^ 512 := Int.emod_nonneg a (by positivity)
  have hB : (0 : ℤ) ≤ b % 2 ^ 512 := Int.emod_nonneg b (by positivity)
  have hmod : a % 2 ^ 512 = b % 2 ^ 512 := by omega
  omega

/-- `getD` on an all-zero array is always `false`. -/
theorem getD_replicate_false (n i : ℕ) :
    (List.replicate n false).getD i false = false := by
  rw [List.getD_eq_getElem?_getD]
  rcases lt_or_le i n with hi | hi
  · rw [List.getElem?_replicate, if_pos hi]
    rfl
  · rw [List.getElem?_eq_none_iff.mpr (by simpa using hi)]
    rfl

/-- On a fresh (all-zero) filter, `may_contain y` directly after `put x`
holds exactly when every bucket of `y` is among the buckets of `x`: the
only mechanism by which one item makes another visible is bucket
collision. -/
theorem mayContain_put_fresh_iff (strHash : String → ℤ) (f : BloomFilter)
    (x y : PyItem)
    (hfresh : f.bit_array = List.replicate f.bit_array.length false)
    (hlen : 0 < f.bit_array.length) :
    (f.put strHash x).mayContain strHash y = true ↔
      ∀ g ∈ f.hash_functions,
        g (toBytesBE64 (pyHash strHash y)) % f.bit_array.length
          ∈ f.hash_functions.map
              fun h => h (toBytesBE64 (pyHash strHash x))
                % f.bit_array.length := by
  have hfr : ∀ i, f.bit_array.getD i false = false := by
    intro i
    rw [hfresh]
    exact getD_replicate_false _ _
  have hput : (f.put strHash x).bit_array
      = setBuckets (toBytesBE64 (pyHash strHash x)) f.hash_functions
          f.bit_array := rfl
  rw [BloomFilter.mayContain, List.all_eq_true]
  constructor
  · intro hall g hg
    have hb := hall g hg
    rw [put_bit_array_length, hput] at hb
    rcases (setBuckets_getD_true_iff hlen).mp hb with hcontra | hmem
    · rw [hfr] at hcontra
      cases hcontra
    · exact hmem
  · intro hmem g hg
    rw [put_bit_array_length, hput]
    exact (setBuckets_getD_true_iff hlen).mpr (Or.inr (hmem g hg))

/-- C9, refuted as stated: in a process whose randomized string hashing
assigns `hash("1") = 1 = hash(1)` (any 64-bit value is possible for the
per-process siphash), `put(1)` makes `may_contain("1")` report true on a
fresh filter — the canonicalization works through `hash()` alone and has no
type information with which to discriminate. -/
theorem C9_counterexample :
    ((bfB.put strHash9 (.pint 1)).mayContain strHash9 (.pstr "1"))
      = true := by
  decide

/-- C9 (amended): whenever the process's string hash gives
`hash("1") ≠ 1 = hash(1)`, the byte signatures of `"1"` and `1` are
distinct (the encoding itself never coerces distinct hash values), and on a
fresh filter `may_contain("1")` directly after `put(1)` reports true only
in the false-positive case: exactly when every bucket derived from `"1"`'s
signature coincides with a bucket derived from `1`'s signature. -/
theorem C9_type_discrimination (strHash : String → ℤ) (f : BloomFilter)
    (hfresh : f.bit_array = List.replicate f.bit_array.length false)
    (hlen : 0 < f.bit_array.length)
    (hr1 : -(2 ^ 511) ≤ strHash "1") (hr2 : strHash "1" < 2 ^ 511)
    (hne : strHash "1" ≠ 1) :
    toBytesBE64 (pyHash strHash (.pstr "1"))
        ≠ toBytesBE64 (pyHash strHash (.pint 1))
    ∧ ((f.put strHash (.pint 1)).mayContain strHash (.pstr "1") = true ↔
        ∀ g ∈ f.hash_functions,
          g (toBytesBE64 (pyHash strHash (.pstr "1"))) % f.bit_array.length
            ∈ f.hash_functions.map
                fun h => h (toBytesBE64 (pyHash strHash (.pint 1)))
                  % f.bit_array.length) := by
  have hpy1 : pyHash strHash (.pint 1) = 1 := by
    show pyHashInt 1 = 1
    decide
  refine ⟨?_, mayContain_put_fresh_iff strHash f (.pint 1) (.pstr "1")
    hfresh hlen⟩
  intro heq
  apply hne
  rw [hpy1] at heq
  exact toBytesBE64_inj hr1 hr2 (by norm_num) (by norm_num) heq

/-- Witness for the amended C9 at a concrete fresh filter and a concrete
string hash with `hash("1") = 4 ≠ 1`. -/
theorem C9_type_discrimination_witness :
    toBytesBE64 (pyHash strHashC (.pstr "1"))
        ≠ toBytesBE64 (pyHash strHashC (.pint 1))
    ∧ ((bfB.put strHashC (.pint 1)).mayContain strHashC (.pstr "1") = true ↔
        ∀ g ∈ bfB.hash_functions,
          g (toBytesBE64 (pyHash strHashC (.pstr "1"))) % bfB.bit_array.length
            ∈ bfB.hash_functions.map
                fun h => h (toBytesBE64 (pyHash strHashC (.pint 1)))
                  % bfB.bit_array.length) :=
  C9_type_discrimination strHashC bfB rfl (by decide) (by decide)
    (by decide) (by decide)

/-! ## C10 -/

/-- C10: the byte signature depends only on the built-in hash value, so any
two items with equal Python hashes are indistinguishable: `put` produces the
same state for both, `may_contain` answers the same for both, and putting
one makes `may_contain` true for the other.  The integer `1`, the boolean
`True` and the float `1.0` are such a family: their hashes all equal
`pyHashInt 1`. -/
theorem C10_hash_equivalence (strHash : String → ℤ) (f : BloomFilter)
    (a b : PyItem) (hlen : 0 < f.bit_array.length)
    (h : pyHash strHash a = pyHash strHash b) :
    f.put strHash a = f.put strHash b
    ∧ f.mayContain strHash a = f.mayContain strHash b
    ∧ (f.put strHash a).mayContain strHash b = true
    ∧ pyHash strHash (.pint 1) = pyHash strHash (.pbool true)
    ∧ pyHash strHash (.pint 1) = pyHash strHash (.pfloatInt 1) := by
  have hput : f.put strHash a = f.put strHash b := by
    unfold BloomFilter.put
    rw [h]
  refine ⟨hput, ?_, ?_, rfl, rfl⟩
  · unfold BloomFilter.mayContain
    rw [h]
  · rw [hput]
    exact mayContain_put_self strHash f b hlen

/-- Witness for C10: `1` and `True` on a concrete filter. -/
theorem C10_hash_equivalence_witness :
    bf0.put strHashC (.pint 1) = bf0.put strHashC (.pbool true)
    ∧ bf0.mayContain strHashC (.pint 1)
        = bf0.mayContain strHashC (.pbool true)
    ∧ (bf0.put strHashC (.pint 1)).mayContain strHashC (.pbool true) = true
    ∧ pyHash strHashC (.pint 1) = pyHash strHashC (.pbool true)
    ∧ pyHash strHashC (.pint 1) = pyHash strHashC (.pfloatInt 1) :=
  C10_hash_equivalence strHashC bf0 (.pint 1) (.pbool true) (by decide) rfl
